import Mathlib

/-!
Verification of the `thebot` message-routing runtime (`thebot/__init__.py`).

The development shallowly embeds the parts of the source the claims are
about: the namespaced `Storage` built on one physical shelve/dict, the
dispatch loop `Bot.on_request`, the `route` decorator together with
`Plugin.get_callbacks`, and the `ThreadedPlugin` worker lifecycle
(`start_worker` / `_worker`).

Python strings are modelled as `List Char`, Python dicts as
insertion-ordered association lists, fallible reads as `Except`/`Option`.
-/

namespace TheBot

/-- A Python string: a list of characters. -/
abbrev Str := List Char

/-- A value stored in the shelve: the Python `None` or a string payload.
The payload type is irrelevant to every claim; `Option Str` gives a
domain containing a distinguished null value, which claim C8 needs. -/
abbrev PVal := Option Str

/-- The physical backing map (`self._shelve`): an insertion-ordered list of
key-value entries, modelling a Python dict / shelve. -/
abbrev Shelve := List (Str × PVal)

/-- Dict lookup: the value at `k`, or `none` when `k` is absent. -/
def dictLookup : Shelve → Str → Option PVal
  | [], _ => Option.none
  | kv :: rest, k => if kv.1 = k then Option.some kv.2 else dictLookup rest k

/-- Dict assignment `d[k] = v`: overwrite the entry in place when the key is
present, otherwise append it (Python dicts keep insertion order). -/
def dictSet (m : Shelve) (k : Str) (v : PVal) : Shelve :=
  if m.any (fun kv => decide (kv.1 = k)) then
    m.map (fun kv => if kv.1 = k then (k, v) else kv)
  else
    m ++ [(k, v)]

/-- A `Storage` view: the `prefix` attribute of the Python `Storage` object.
All views share the single physical `Shelve`, which is passed explicitly
to each operation (the source stores a reference to the one shared
`self._shelve`). The field is named `pfx` because `prefix` is reserved. -/
structure Storage where
  pfx : Str
deriving DecidableEq

/-- Source `Storage.__getitem__`: `self._shelve.__getitem__(self.prefix + name)`.
A missing key raises `KeyError`, modelled as `Except.error ()`. -/
def Storage.getitem (s : Storage) (shelve : Shelve) (name : Str) : Except Unit PVal :=
  match dictLookup shelve (s.pfx ++ name) with
  | Option.some v => Except.ok v
  | Option.none => Except.error ()

/-- Source `Storage.get`: `self._shelve.get(self.prefix + name)`.
Python `dict.get` returns `None` when the key is absent. -/
def Storage.get (s : Storage) (shelve : Shelve) (name : Str) : PVal :=
  match dictLookup shelve (s.pfx ++ name) with
  | Option.some v => v
  | Option.none => Option.none

/-- Source `Storage.__setitem__`: `self._shelve.__setitem__(self.prefix + name, value)`. -/
def Storage.setitem (s : Storage) (shelve : Shelve) (name : Str) (v : PVal) : Shelve :=
  dictSet shelve (s.pfx ++ name) v

/-- Source `Storage.keys`:
`filter(lambda x: x.startswith(self.prefix), self._shelve.keys())`. -/
def Storage.keys (s : Storage) (shelve : Shelve) : List Str :=
  (shelve.map Prod.fst).filter (fun k => s.pfx.isPrefixOf k)

/-- Source `Storage.with_prefix`: `Storage(self._shelve, prefix=prefix)` —
a new view over the same shelve whose stored prefix is exactly the
argument (the current prefix is not consulted). -/
def Storage.withPrefix (_s : Storage) (p : Str) : Storage :=
  ⟨p⟩

/-! ### Patterns and `re.match`

The route patterns the repository registers are regular expressions built
from literal text and named wildcard captures `(?P<name>.*)`. The
embedding models exactly that fragment: a pattern is a sequence of
tokens, each a literal or a named greedy capture of arbitrary text.
`re.match` anchors at the start of the message and does not require the
pattern to consume the whole message; on success it yields the named
groups (`match.groupdict()`). -/

/-- One token of a route pattern: literal text, or a named greedy
wildcard capture `(?P<name>.*)`. -/
inductive Tok where
  | lit : Str → Tok
  | group : Str → Tok
deriving DecidableEq

/-- A route pattern: a sequence of tokens. -/
abbrev Pat := List Tok

/-- A groupdict: named captures produced by a successful match. -/
abbrev Caps := List (Str × Str)

/-- Backtracking helper for a greedy `(?P<n>.*)` capture: try to capture
the first `k` characters of `msg` and match the rest of the pattern
(already bound in `matchRest`) on the remainder, preferring the longest
capture, exactly as the greedy `.*` of `re` does. -/
def tryFrom (matchRest : Str → Option Caps) (n : Str) (msg : Str) : Nat → Option Caps
  | 0 =>
    match matchRest msg with
    | Option.some caps => Option.some ((n, []) :: caps)
    | Option.none => Option.none
  | k + 1 =>
    match matchRest (msg.drop (k + 1)) with
    | Option.some caps => Option.some ((n, msg.take (k + 1)) :: caps)
    | Option.none => tryFrom matchRest n msg k

/-- Matching a token sequence against a message, anchored at the current
position: an exhausted pattern succeeds with trailing message content
left unconsumed (the `re.match` prefix semantics); a literal must be a
prefix of the remaining message; a named group captures greedily with
backtracking. -/
def matchToks : Pat → Str → Option Caps
  | [], _ => Option.some []
  | Tok.lit s :: rest, msg =>
    if s.isPrefixOf msg then matchToks rest (msg.drop s.length) else Option.none
  | Tok.group n :: rest, msg =>
    tryFrom (fun m => matchToks rest m) n msg msg.length

/-- Source `re.match(pattern, request.message)` followed by
`match.groupdict()`: `some` groupdict on a match anchored at the start of
the message, `none` otherwise. -/
def reMatch (p : Pat) (msg : Str) : Option Caps :=
  matchToks p msg

/-! ### The dispatch core (`Bot.on_request`) -/

/-- A registered Binding, one element of `self.patterns`: the route
pattern and the bound handler. A handler receives the request message and
the named captures and, in the embedding, yields the list of messages it
passed to `request.respond` together with its Python return value
(`none` is the `None` sentinel). The `id` field records the registration
index so theorems can speak about which handler ran. -/
structure Binding where
  id : Nat
  pattern : Pat
  handler : Str → Caps → List Str × Option Str

/-- A dispatched request: either the distinguished `EXIT` sentinel
(recognised by identity) or a message-bearing request. -/
inductive Request where
  | exit
  | msg : Str → Request

/-- The observable outcome of one `Bot.on_request` call: whether the
exiting flag was set, the ids of the handlers invoked (in order), the
responses produced through the request, and the error the call raised,
if any. -/
structure DispatchResult where
  setsExiting : Bool
  invoked : List Nat
  responses : List Str
  error : Option Str
deriving DecidableEq

/-- An apostrophe character, written by code point. -/
def squote : Char := Char.ofNat 39

/-- The message of the `RuntimeError` raised when a handler returns a
non-`None` value (the source passes the format template itself, never
calling `format` on it). -/
def pluginReturnError : Str :=
  "Plugin \x7b0\x7d should not return response directly. Use request.respond(some message).".toList

/-- The unknown-command response: `I don't know command "{0}".` with the
original message substituted. -/
def unknownCommand (m : Str) : Str :=
  "I don".toList ++ [squote] ++ "t know command \"".toList ++ m ++ "\".".toList

/-- The `for pattern, callback in self.patterns` loop of `on_request`:
the first Binding, in registration order, whose pattern matches the
message, together with its groupdict. -/
def findBinding : List Binding → Str → Option (Binding × Caps)
  | [], _ => Option.none
  | b :: rest, m =>
    match reMatch b.pattern m with
    | Option.some gd => Option.some (b, gd)
    | Option.none => findBinding rest m

/-- Source `Bot.on_request`: the `EXIT` sentinel sets the exiting flag and
invokes no handler; otherwise the first matching Binding's handler runs
with the named captures and a non-`None` return value raises
`RuntimeError`; when no Binding matches, the `for`-`else` branch responds
with the unknown-command message. -/
def on_request (bs : List Binding) (r : Request) : DispatchResult :=
  match r with
  | Request.exit => ⟨true, [], [], Option.none⟩
  | Request.msg m =>
    match findBinding bs m with
    | Option.some (b, gd) =>
      let out := b.handler m gd
      ⟨false, [b.id], out.1,
        match out.2 with
        | Option.some _ => Option.some pluginReturnError
        | Option.none => Option.none⟩
    | Option.none => ⟨false, [], [unknownCommand m], Option.none⟩

/-! ### The capability registry (`route` and `Plugin.get_callbacks`) -/

/-- A callable attribute of a plugin instance, as `get_callbacks` sees it:
its attribute name, its position in the class body (declaration order,
recorded only so theorems can speak about it), and the value of its
`_patterns` attribute left by the `route` decorators (empty for methods
that carry no route). The bound method itself is identified by this
record. -/
structure Method where
  name : Str
  declIndex : Nat
  patterns : List Pat
deriving DecidableEq

/-- Code-point comparison of Python strings, the order `dir()` sorts
attribute names by: lexicographic on character code points. -/
def strLeB : Str → Str → Bool
  | [], _ => true
  | _ :: _, [] => false
  | a :: s, b :: t =>
    if a.toNat < b.toNat then true
    else if b.toNat < a.toNat then false
    else strLeB s t

/-- The ordering `dir()` enumerates attribute names in. -/
def methodLe (m1 m2 : Method) : Prop :=
  strLeB m1.name m2.name = true

instance : DecidableRel methodLe := fun m1 m2 => by
  unfold methodLe; infer_instance

/-- Source `route` decorator body: create `_patterns` as `[]` when the
function does not have it yet, then append the pattern. -/
def route (pattern : Pat) (patterns : Option (List Pat)) : List Pat :=
  patterns.getD [] ++ [pattern]

/-- A stack of `route` decorators written textually top-to-bottom over one
method: Python applies the bottom-most decorator first, so the stack
folds from the right, each application appending its pattern. -/
def applyRouteStack (ds : List Pat) : Option (List Pat) :=
  ds.foldr (fun p acc => Option.some (route p acc)) Option.none

/-- Source `Plugin.get_callbacks`: `for name in dir(self)` — `dir()`
returns the attribute names sorted — then for each callable attribute
every pattern of its `_patterns` yields a `(pattern, value)` pair.
Methods without routes have `patterns = []` and contribute nothing. -/
def get_callbacks (methods : List Method) : List (Pat × Method) :=
  (List.insertionSort methodLe methods).flatMap
    (fun m => m.patterns.map (fun p => (p, m)))

/-! ### The worker lifecycle (`ThreadedPlugin`) -/

/-- The state of the `_worker` loop observable across ticks: the countdown
until the next `do_job` call, the number of `do_job` invocations made so
far, and the number of exceptions caught and logged. -/
structure WorkerState where
  countdown : Nat
  jobRuns : Nat
  logged : Nat
deriving DecidableEq

/-- One iteration of the `while not self._event.is_set()` loop body: at
countdown zero, `do_job` runs inside `try`/`except` — the `fails`
schedule says whether the k-th invocation raises — an exception is
logged, and either way the countdown is reset to `interval`; otherwise
the countdown decrements; then the loop sleeps one second. -/
def workerTick (interval : Nat) (fails : Nat → Bool) (s : WorkerState) : WorkerState :=
  if s.countdown = 0 then
    if fails s.jobRuns then
      ⟨interval, s.jobRuns + 1, s.logged + 1⟩
    else
      ⟨interval, s.jobRuns + 1, s.logged⟩
  else
    ⟨s.countdown - 1, s.jobRuns, s.logged⟩

/-- The `_worker` loop after `n` ticks, starting from `countdown = 0` as
the source does. -/
def workerRun (interval : Nat) (fails : Nat → Bool) : Nat → WorkerState
  | 0 => ⟨0, 0, 0⟩
  | n + 1 => workerTick interval fails (workerRun interval fails n)

/-- The thread-management state `start_worker` consults: `threadAlive` is
`none` when the instance has no `_thread` attribute yet and `some b` when
`_thread` exists with `is_alive() = b`; `spawned` counts the threads ever
created and started, so theorems can speak about how many loops exist. -/
structure WorkerCtl where
  threadAlive : Option Bool
  spawned : Nat
deriving DecidableEq

/-- Source `ThreadedPlugin.start_worker`: return immediately when a live
thread is recorded; otherwise create and start a fresh daemon thread
running `_worker` and record it. -/
def start_worker (s : WorkerCtl) : WorkerCtl :=
  match s.threadAlive with
  | Option.some true => s
  | _ => ⟨Option.some true, s.spawned + 1⟩

/-! ### Concrete witness data

The plugin of the repository test-suite: `show me a cat` and
`find (?P<this>.*)` with their handlers, plus the `BadPlugin` handler
that returns a value. -/

/-- The `show me a cat` Binding of the test-suite `TestPlugin`. -/
def catB : Binding :=
  ⟨0, [Tok.lit "show me a cat".toList],
    fun _ _ => (["the Cat".toList], Option.none)⟩

/-- A later-registered Binding whose pattern overlaps `catB`: `show me`
also matches the message `show me a cat`. -/
def showB : Binding :=
  ⟨1, [Tok.lit "show me".toList],
    fun _ _ => (["overlap".toList], Option.none)⟩

/-- The `find (?P<this>.*)` Binding of the test-suite `TestPlugin`. -/
def findB : Binding :=
  ⟨2, [Tok.lit "find ".toList, Tok.group "this".toList],
    fun _ gd => (["I found ".toList ++ ((gd.lookup "this".toList).getD []) ], Option.none)⟩

/-- The `BadPlugin.do` Binding of the test-suite: its handler returns
`'Hello world'` instead of `None`. -/
def badB : Binding :=
  ⟨0, [Tok.lit "do".toList],
    fun _ _ => ([], Option.some "Hello world".toList)⟩

/-- A plugin method declared first in its class body whose name sorts
last. -/
def mZshow : Method :=
  ⟨"zshow".toList, 0, [[Tok.lit "z".toList]]⟩

/-- A plugin method declared second in its class body whose name sorts
first. -/
def mAfind : Method :=
  ⟨"afind".toList, 1, [[Tok.lit "a".toList]]⟩

/-! ## Lemmas about the dict model -/

theorem dictLookup_map_overwrite_self (m : Shelve) (k : Str) (v : PVal)
    (h : m.any (fun kv => decide (kv.1 = k)) = true) :
    dictLookup (m.map (fun kv => if kv.1 = k then (k, v) else kv)) k = Option.some v := by
  induction m with
  | nil => simp at h
  | cons kv rest ih =>
    by_cases hk : kv.1 = k
    · simp [dictLookup, hk]
    · have hrest : rest.any (fun kv => decide (kv.1 = k)) = true := by
        simpa [List.any_cons, hk] using h
      simp [dictLookup, hk, ih hrest]

theorem dictLookup_map_overwrite_ne (m : Shelve) (k k2 : Str) (v : PVal)
    (hne : k2 ≠ k) :
    dictLookup (m.map (fun kv => if kv.1 = k then (k, v) else kv)) k2 =
      dictLookup m k2 := by
  induction m with
  | nil => rfl
  | cons kv rest ih =>
    by_cases hk : kv.1 = k
    · have hk2 : kv.1 ≠ k2 := by rw [hk]; exact fun h => hne h.symm
      simp [dictLookup, hk, hk2, Ne.symm hne, ih]
    · simp only [List.map_cons, if_neg hk]
      by_cases hk2 : kv.1 = k2
      · simp [dictLookup, hk2]
      · simp [dictLookup, hk2, ih]

theorem dictLookup_append_self (m : Shelve) (k : Str) (v : PVal)
    (h : m.any (fun kv => decide (kv.1 = k)) = false) :
    dictLookup (m ++ [(k, v)]) k = Option.some v := by
  induction m with
  | nil => simp [dictLookup]
  | cons kv rest ih =>
    have hk : ¬ kv.1 = k := by
      intro he
      simp [List.any_cons, he] at h
    have hrest : rest.any (fun kv => decide (kv.1 = k)) = false := by
      simpa [List.any_cons, hk] using h
    simp [dictLookup, hk, ih hrest]

theorem dictLookup_append_ne (m : Shelve) (k k2 : Str) (v : PVal)
    (hne : k2 ≠ k) :
    dictLookup (m ++ [(k, v)]) k2 = dictLookup m k2 := by
  induction m with
  | nil => simp [dictLookup, Ne.symm hne]
  | cons kv rest ih =>
    by_cases hk : kv.1 = k2 <;> simp [dictLookup, hk, ih]

theorem dictLookup_set_self (m : Shelve) (k : Str) (v : PVal) :
    dictLookup (dictSet m k v) k = Option.some v := by
  unfold dictSet
  by_cases hany : m.any (fun kv => decide (kv.1 = k)) = true
  · simp only [hany, if_true]
    exact dictLookup_map_overwrite_self m k v hany
  · have hf : m.any (fun kv => decide (kv.1 = k)) = false :=
      Bool.eq_false_iff.mpr hany
    simp only [hf, Bool.false_eq_true, if_false]
    exact dictLookup_append_self m k v hf

theorem dictLookup_set_ne (m : Shelve) (k k2 : Str) (v : PVal)
    (hne : k2 ≠ k) :
    dictLookup (dictSet m k v) k2 = dictLookup m k2 := by
  unfold dictSet
  by_cases hany : m.any (fun kv => decide (kv.1 = k)) = true
  · simp only [hany, if_true]
    exact dictLookup_map_overwrite_ne m k k2 v hne
  · simp only [Bool.eq_false_iff.mpr hany, Bool.false_eq_true, if_false]
    exact dictLookup_append_ne m k k2 v hne

theorem map_fst_overwrite (m : Shelve) (k : Str) (v : PVal) :
    (m.map (fun kv => if kv.1 = k then (k, v) else kv)).map Prod.fst =
      m.map Prod.fst := by
  induction m with
  | nil => rfl
  | cons kv rest ih =>
    by_cases hk : kv.1 = k <;> simp [hk, ih]

theorem mem_map_fst_of_any (m : Shelve) (k : Str)
    (h : m.any (fun kv => decide (kv.1 = k)) = true) :
    k ∈ m.map Prod.fst := by
  rcases List.any_eq_true.mp h with ⟨kv, hmem, hk⟩
  exact List.mem_map.mpr ⟨kv, hmem, of_decide_eq_true hk⟩

/-! ## Lemmas about prefix incomparability -/

theorem not_prefix_append (p1 p2 k : Str)
    (h1 : ¬ p1 <+: p2) (h2 : ¬ p2 <+: p1) :
    ¬ p2 <+: p1 ++ k := by
  intro h
  rcases List.prefix_or_prefix_of_prefix h (List.prefix_append p1 k) with hc | hc
  · exact h2 hc
  · exact h1 hc

theorem append_ne_of_incomparable (p1 p2 k k2 : Str)
    (h1 : ¬ p1 <+: p2) (h2 : ¬ p2 <+: p1) :
    p2 ++ k2 ≠ p1 ++ k := by
  intro heq
  exact not_prefix_append p1 p2 k h1 h2 (heq ▸ List.prefix_append p2 k2)

theorem mem_map_fst_dictSet (m : Shelve) (k : Str) (v : PVal) :
    k ∈ (dictSet m k v).map Prod.fst := by
  unfold dictSet
  by_cases hany : m.any (fun kv => decide (kv.1 = k)) = true
  · simp only [hany, if_true, map_fst_overwrite]
    exact mem_map_fst_of_any m k hany
  · simp [Bool.eq_false_iff.mpr hany]

theorem keys_setitem_other (p1 p2 k : Str) (v : PVal) (shelve : Shelve)
    (hnp : ¬ p2 <+: p1 ++ k) :
    Storage.keys ⟨p2⟩ (Storage.setitem ⟨p1⟩ shelve k v) =
      Storage.keys ⟨p2⟩ shelve := by
  unfold Storage.keys Storage.setitem dictSet
  by_cases hany : shelve.any (fun kv => decide (kv.1 = p1 ++ k)) = true
  · simp only [hany, if_true, map_fst_overwrite]
  · have hpf : p2.isPrefixOf (p1 ++ k) = false := by
      rw [Bool.eq_false_iff]
      intro h
      exact hnp (List.isPrefixOf_iff_prefix.mp h)
    simp [Bool.eq_false_iff.mpr hany, List.filter_append, hpf]

/-! ## Claim theorems about the namespaced store -/

/-- C2, counterexample: on the shelve holding the single physical key
`p:a`, the view with prefix `p:` answers `keys()` with the physical key
`p:a` itself, not with the prefix-stripped logical key `a` the claim
requires. -/
theorem keys_unstripped_cex :
    Storage.keys ⟨"p:".toList⟩ [("p:a".toList, Option.some "v".toList)] =
      ["p:a".toList]
    ∧ Storage.keys ⟨"p:".toList⟩ [("p:a".toList, Option.some "v".toList)] ≠
      ["a".toList] := by
  decide

/-- C2, amended: `keys()` returns exactly the physical keys of the backing
map that carry the current prefix — each returned key is `P ++ K` for a
logical key `K` with `P ++ K` present in the backing map — with the
prefix still attached, not stripped. -/
theorem keys_physical_prefixed_amended (s : Storage) (shelve : Shelve) (k : Str) :
    k ∈ Storage.keys s shelve ↔
      ∃ kk : Str, k = s.pfx ++ kk ∧ s.pfx ++ kk ∈ shelve.map Prod.fst := by
  constructor
  · intro h
    rcases List.mem_filter.mp h with ⟨hmem, hpf⟩
    rcases List.isPrefixOf_iff_prefix.mp hpf with ⟨t, ht⟩
    exact ⟨t, ht.symm, ht ▸ hmem⟩
  · rintro ⟨kk, rfl, hmem⟩
    exact List.mem_filter.mpr
      ⟨hmem, List.isPrefixOf_iff_prefix.mpr ⟨kk, rfl⟩⟩

/-- C3, counterexample: on a view whose current prefix is `a:`,
`with_prefix('b:')` returns the view with prefix `b:`, not the appended
prefix `a:b:` the claim requires. -/
theorem withPrefix_replaces_cex :
    (Storage.withPrefix ⟨"a:".toList⟩ "b:".toList).pfx = "b:".toList
    ∧ (Storage.withPrefix ⟨"a:".toList⟩ "b:".toList).pfx ≠
      "a:".toList ++ "b:".toList := by
  decide

/-- C3, amended: `with_prefix(subPrefix)` returns a new view over the same
backing map whose prefix is exactly `subPrefix` — the current prefix is
discarded, so repeated calls do not compose hierarchically: the last
prefix wins. -/
theorem withPrefix_replaces_amended (s : Storage) (p q : Str) :
    (Storage.withPrefix s p).pfx = p
    ∧ Storage.withPrefix (Storage.withPrefix s p) q = Storage.withPrefix s q :=
  ⟨rfl, rfl⟩

/-- C4, counterexample: the views with the distinct prefixes `a` and `ab`
are not isolated — after writing key `x` through the `ab` view, the
physical key `abx` shows up in the `a` view of `keys()` and the value is
readable through the `a` view as `get('bx')`. -/
theorem cross_namespace_visible_cex :
    "a".toList ≠ "ab".toList
    ∧ Storage.keys ⟨"a".toList⟩
        (Storage.setitem ⟨"ab".toList⟩ [] "x".toList (Option.some "v".toList)) =
        ["abx".toList]
    ∧ Storage.get ⟨"a".toList⟩
        (Storage.setitem ⟨"ab".toList⟩ [] "x".toList (Option.some "v".toList))
        "bx".toList = Option.some "v".toList := by
  decide

/-- C4, amended: for two views whose prefixes are incomparable — neither
prefix is a string prefix of the other — a write through the first view
changes nothing the second view can observe through `keys()` or `get()`,
while a second view holding the same prefix as the writer sees the
written key through `keys()`, `get()` and indexing. (For comparable
distinct prefixes such as `a` and `ab` the isolation fails, as the
counterexample shows.) -/
theorem namespace_isolation_amended (p1 p2 k : Str) (v : PVal) (shelve : Shelve)
    (h1 : ¬ p1 <+: p2) (h2 : ¬ p2 <+: p1) :
    (Storage.keys ⟨p2⟩ (Storage.setitem ⟨p1⟩ shelve k v) =
      Storage.keys ⟨p2⟩ shelve)
    ∧ (∀ k2 : Str, Storage.get ⟨p2⟩ (Storage.setitem ⟨p1⟩ shelve k v) k2 =
        Storage.get ⟨p2⟩ shelve k2)
    ∧ Storage.get ⟨p1⟩ (Storage.setitem ⟨p1⟩ shelve k v) k = v
    ∧ Storage.getitem ⟨p1⟩ (Storage.setitem ⟨p1⟩ shelve k v) k = Except.ok v
    ∧ p1 ++ k ∈ Storage.keys ⟨p1⟩ (Storage.setitem ⟨p1⟩ shelve k v) := by
  refine ⟨?_, ?_, ?_, ?_, ?_⟩
  · exact keys_setitem_other p1 p2 k v shelve (not_prefix_append p1 p2 k h1 h2)
  · intro k2
    unfold Storage.get Storage.setitem
    rw [dictLookup_set_ne shelve (p1 ++ k) (p2 ++ k2) v
      (append_ne_of_incomparable p1 p2 k k2 h1 h2)]
  · unfold Storage.get Storage.setitem
    rw [dictLookup_set_self shelve (p1 ++ k) v]
  · unfold Storage.getitem Storage.setitem
    rw [dictLookup_set_self shelve (p1 ++ k) v]
  · unfold Storage.keys Storage.setitem
    exact List.mem_filter.mpr
      ⟨mem_map_fst_dictSet shelve (p1 ++ k) v,
        List.isPrefixOf_iff_prefix.mpr (List.prefix_append p1 k)⟩

/-- C4, witness: the amended theorem applied to the two incomparable
prefixes of the test-suite, `first:` and `second:`, writing `blah`
through the first view over the empty shelve. -/
theorem namespace_isolation_amended_witness :
    Storage.get ⟨"second:".toList⟩
      (Storage.setitem ⟨"first:".toList⟩ [] "blah".toList
        (Option.some "minor".toList)) "blah".toList = Option.none
    ∧ Storage.get ⟨"first:".toList⟩
      (Storage.setitem ⟨"first:".toList⟩ [] "blah".toList
        (Option.some "minor".toList)) "blah".toList =
        Option.some "minor".toList := by
  have h := namespace_isolation_amended "first:".toList "second:".toList
    "blah".toList (Option.some "minor".toList) []
    (by decide) (by decide)
  exact ⟨by rw [h.2.1 "blah".toList]; decide, h.2.2.1⟩

/-- C8, counterexample: reading the absent key `k` with `get` does not
fail — it returns the null value, the very answer `get` gives when `k`
is present holding the stored null — so the absent-key outcome of `get`
is conflated with a stored null. -/
theorem get_absent_conflates_cex :
    Storage.get ⟨[]⟩ [] "k".toList =
      Storage.get ⟨[]⟩ [("k".toList, Option.none)] "k".toList
    ∧ Storage.get ⟨[]⟩ [] "k".toList = Option.none := by
  decide

/-- C8, amended: the indexing read (`storage[key]`) raises `KeyError`
exactly on absent keys, an outcome distinct from every successful read,
including a stored null, which it returns as `ok`; the `get` read,
however, returns the null value both for an absent key and for a stored
null, so only indexing separates the two conditions. -/
theorem read_absent_amended (s : Storage) (shelve : Shelve) (name : Str) :
    (Storage.getitem s shelve name = Except.error () ↔
      dictLookup shelve (s.pfx ++ name) = Option.none)
    ∧ (∀ v : PVal, dictLookup shelve (s.pfx ++ name) = Option.some v →
        Storage.getitem s shelve name = Except.ok v)
    ∧ (Storage.get s shelve name = Option.none ↔
        (dictLookup shelve (s.pfx ++ name) = Option.none ∨
          dictLookup shelve (s.pfx ++ name) = Option.some Option.none)) := by
  refine ⟨?_, ?_, ?_⟩
  · cases h : dictLookup shelve (s.pfx ++ name) <;>
      simp [Storage.getitem, h]
  · intro v hv
    simp [Storage.getitem, hv]
  · cases h : dictLookup shelve (s.pfx ++ name) with
    | none => simp [Storage.get, h]
    | some v => simp [Storage.get, h]

/-- C8, witness: the amended theorem applied to the singleton shelve
holding `k` with a non-null value, discharging the implication at that
stored value. -/
theorem read_absent_amended_witness :
    Storage.getitem ⟨[]⟩ [("k".toList, Option.some "x".toList)] "k".toList =
      Except.ok (Option.some "x".toList) :=
  (read_absent_amended ⟨[]⟩ [("k".toList, Option.some "x".toList)]
    "k".toList).2.1 (Option.some "x".toList) (by decide)

/-! ## Lemmas about the dispatch loop -/

theorem findBinding_first (pre post : List Binding) (b : Binding) (m : Str)
    (gd : Caps)
    (hpre : ∀ b2 ∈ pre, reMatch b2.pattern m = Option.none)
    (hb : reMatch b.pattern m = Option.some gd) :
    findBinding (pre ++ b :: post) m = Option.some (b, gd) := by
  induction pre with
  | nil => simp [findBinding, hb]
  | cons x rest ih =>
    have hx : reMatch x.pattern m = Option.none := hpre x (by simp)
    simp only [List.cons_append, findBinding, hx]
    exact ih (fun b2 hmem => hpre b2 (List.mem_cons_of_mem x hmem))

theorem findBinding_none (bs : List Binding) (m : Str)
    (h : ∀ b ∈ bs, reMatch b.pattern m = Option.none) :
    findBinding bs m = Option.none := by
  induction bs with
  | nil => rfl
  | cons x rest ih =>
    simp only [findBinding, h x (by simp)]
    exact ih (fun b hmem => h b (List.mem_cons_of_mem x hmem))

theorem reMatch_lit_prefix (p suffix : Str) :
    reMatch [Tok.lit p] (p ++ suffix) = Option.some [] := by
  have hpf : p.isPrefixOf (p ++ suffix) = true :=
    List.isPrefixOf_iff_prefix.mpr (List.prefix_append p suffix)
  simp [reMatch, matchToks, hpf]

/-! ## Claim theorems about the dispatch core -/

/-- C1: dispatching a non-exit request whose message is matched by the
Binding `b`, registered after the Bindings of `pre`, none of which
matches, and before the arbitrary Bindings of `post` — so in particular
before any later overlapping Binding — invokes exactly the handler of
`b` with its named captures, and nothing else; moreover every dispatch
invokes at most one handler, and matching is anchored at the start of
the message only: a literal pattern accepts any trailing content. -/
theorem dispatch_first_registered_wins (pre post : List Binding) (b : Binding)
    (m : Str) (gd : Caps)
    (hpre : ∀ b2 ∈ pre, reMatch b2.pattern m = Option.none)
    (hb : reMatch b.pattern m = Option.some gd) :
    ((on_request (pre ++ b :: post) (Request.msg m)).invoked = [b.id]
      ∧ (on_request (pre ++ b :: post) (Request.msg m)).responses =
          (b.handler m gd).1)
    ∧ (∀ (bs : List Binding) (r : Request),
        (on_request bs r).invoked.length ≤ 1)
    ∧ (∀ p suffix : Str, reMatch [Tok.lit p] (p ++ suffix) = Option.some []) := by
  refine ⟨?_, ?_, reMatch_lit_prefix⟩
  · have h := findBinding_first pre post b m gd hpre hb
    constructor <;> simp [on_request, h]
  · intro bs r
    cases r with
    | exit => simp [on_request]
    | msg m2 =>
      cases h : findBinding bs m2 with
      | none => simp [on_request, h]
      | some bgd => simp [on_request, h]

/-- C1, witness: the Binding `show me a cat` registered before the
overlapping Binding `show me`; both match the message `show me a cat`,
and dispatch invokes exactly the first-registered handler, which
responds `the Cat`. -/
theorem dispatch_first_registered_wins_witness :
    reMatch catB.pattern "show me a cat".toList = Option.some []
    ∧ reMatch showB.pattern "show me a cat".toList =
        Option.some []
    ∧ (on_request (catB :: [showB]) (Request.msg "show me a cat".toList)).invoked
        = [catB.id]
    ∧ (on_request (catB :: [showB]) (Request.msg "show me a cat".toList)).responses
        = ["the Cat".toList] :=
  ⟨by decide, by decide,
    ((dispatch_first_registered_wins [] [showB] catB "show me a cat".toList []
      (fun b2 h => absurd h (List.not_mem_nil b2)) (by decide)).1).1,
    ((dispatch_first_registered_wins [] [showB] catB "show me a cat".toList []
      (fun b2 h => absurd h (List.not_mem_nil b2)) (by decide)).1).2⟩

/-- C6: when the first matching handler returns anything other than the
`None` sentinel, `on_request` raises the `RuntimeError` carrying the
handler-contract message — the error is the outcome of the dispatch call
itself, reaching its caller — and the dispatch for the request is over
after that single invocation: no other handler runs and no
unknown-command response is produced. -/
theorem handler_return_error (pre post : List Binding) (b : Binding) (m : Str)
    (gd : Caps) (rs : List Str) (v : Str)
    (hpre : ∀ b2 ∈ pre, reMatch b2.pattern m = Option.none)
    (hb : reMatch b.pattern m = Option.some gd)
    (hret : b.handler m gd = (rs, Option.some v)) :
    on_request (pre ++ b :: post) (Request.msg m) =
      ⟨false, [b.id], rs, Option.some pluginReturnError⟩ := by
  have h := findBinding_first pre post b m gd hpre hb
  simp [on_request, h, hret]

/-- C6, witness: the `BadPlugin` Binding of the test-suite — pattern `do`,
handler returning `'Hello world'` — makes the dispatch of the message
`do` end in the `RuntimeError`. -/
theorem handler_return_error_witness :
    on_request ([] ++ badB :: []) (Request.msg "do".toList) =
      ⟨false, [badB.id], [], Option.some pluginReturnError⟩ :=
  handler_return_error [] [] badB "do".toList [] [] "Hello world".toList
    (fun b2 h => absurd h (List.not_mem_nil b2)) (by decide) (by decide)

/-- C7: when no registered Binding matches the message, dispatch invokes
no handler, raises no error, and produces exactly one response: the
unknown-command template around the original message. -/
theorem unknown_command_response (bs : List Binding) (m : Str)
    (h : ∀ b ∈ bs, reMatch b.pattern m = Option.none) :
    on_request bs (Request.msg m) =
      ⟨false, [], [unknownCommand m], Option.none⟩ := by
  simp [on_request, findBinding_none bs m h]

/-- C7, witness: neither test-suite Binding matches `some command`, and
dispatch produces the single response the unknown-command test expects. -/
theorem unknown_command_response_witness :
    (∀ b ∈ [catB, findB], reMatch b.pattern "some command".toList = Option.none)
    ∧ on_request [catB, findB] (Request.msg "some command".toList) =
      ⟨false, [],
        ["I don".toList ++ [squote] ++
          "t know command \"some command\".".toList], Option.none⟩ :=
  ⟨by decide,
    Trans.trans
      (unknown_command_response [catB, findB] "some command".toList (by decide))
      (by decide)⟩

/-! ## Lemmas about the attribute-name order -/

theorem strLeB_refl (a : Str) : strLeB a a = true := by
  induction a with
  | nil => rfl
  | cons x s ih =>
    simp only [strLeB, Nat.lt_irrefl, if_false]
    exact ih

theorem strLeB_total (a : Str) : ∀ b : Str, strLeB a b = true ∨ strLeB b a = true := by
  induction a with
  | nil => intro b; left; rfl
  | cons x s ih =>
    intro b
    cases b with
    | nil => right; rfl
    | cons y t =>
      rcases Nat.lt_trichotomy x.toNat y.toNat with h | h | h
      · left; simp [strLeB, h]
      · simp only [strLeB, h, Nat.lt_irrefl, if_false]
        exact ih t
      · right; simp [strLeB, h]

theorem strLeB_trans (a : Str) :
    ∀ b c : Str, strLeB a b = true → strLeB b c = true → strLeB a c = true := by
  induction a with
  | nil => intro b c _ _; rfl
  | cons x s ih =>
    intro b c hab hbc
    cases b with
    | nil => simp [strLeB] at hab
    | cons y t =>
      cases c with
      | nil => simp [strLeB] at hbc
      | cons z u =>
        simp only [strLeB] at hab hbc ⊢
        rcases Nat.lt_trichotomy x.toNat y.toNat with h1 | h1 | h1
        · rcases Nat.lt_trichotomy y.toNat z.toNat with h2 | h2 | h2
          · rw [if_pos (Nat.lt_trans h1 h2)]
          · rw [if_pos (h2 ▸ h1)]
          · rw [if_neg (by omega), if_pos h2] at hbc
            exact absurd hbc (by simp)
        · rw [if_neg (by omega), if_neg (by omega)] at hab
          rcases Nat.lt_trichotomy y.toNat z.toNat with h2 | h2 | h2
          · rw [if_pos (h1 ▸ h2)]
          · rw [if_neg (by omega), if_neg (by omega)] at hbc
            rw [if_neg (by omega), if_neg (by omega)]
            exact ih t u hab hbc
          · rw [if_neg (by omega), if_pos h2] at hbc
            exact absurd hbc (by simp)
        · rw [if_neg (by omega), if_pos h1] at hab
          exact absurd hab (by simp)

/-! ## Claim theorems about the capability registry -/

/-- C5, counterexample: in a plugin declaring first the routed method
`zshow` and then the routed method `afind`, `get_callbacks` yields the
pair of `afind` before the pair of `zshow` — the alphabetical order of
`dir()`, not the declaration order the claim requires. -/
theorem get_callbacks_order_cex :
    (get_callbacks [mZshow, mAfind]).map (fun pm => pm.2.declIndex) = [1, 0]
    ∧ (get_callbacks [mZshow, mAfind]).map (fun pm => pm.2.declIndex) ≠
      [0, 1] := by
  decide

/-- C5, amended: `get_callbacks` returns the same `(pattern, handler)`
pairs as the declaration-order enumeration — a permutation of it — but
in the deterministic order of `dir()`: grouped by handler method, the
methods sorted by attribute name under the code-point order, and within
one method the patterns in `_patterns` order, which is the bottom-up
application order of its stacked `route` decorators (the reverse of
their textual order). -/
theorem get_callbacks_sorted_amended (methods : List Method) :
    (get_callbacks methods).Perm
      (methods.flatMap (fun m => m.patterns.map (fun p => (p, m))))
    ∧ List.Pairwise
        (fun pm1 pm2 : Pat × Method => strLeB pm1.2.name pm2.2.name = true)
        (get_callbacks methods)
    ∧ (∀ ds : List Pat, (applyRouteStack ds).getD [] = ds.reverse) := by
  refine ⟨?_, ?_, ?_⟩
  · exact List.Perm.flatMap_right _ (List.perm_insertionSort methodLe methods)
  · haveI : IsTotal Method methodLe :=
      ⟨fun a b => strLeB_total a.name b.name⟩
    haveI : IsTrans Method methodLe :=
      ⟨fun a b c => strLeB_trans a.name b.name c.name⟩
    have hs : List.Pairwise methodLe (List.insertionSort methodLe methods) :=
      List.sorted_insertionSort methodLe methods
    unfold get_callbacks
    generalize List.insertionSort methodLe methods = ms2 at hs
    induction ms2 with
    | nil => simp
    | cons m rest ih =>
      rcases List.pairwise_cons.mp hs with ⟨hhead, htail⟩
      rw [List.flatMap_cons]
      refine List.pairwise_append.mpr ⟨?_, ih htail, ?_⟩
      · refine List.pairwise_of_forall_mem_list ?_
        intro x hx y hy
        rcases List.mem_map.mp hx with ⟨p1, _, rfl⟩
        rcases List.mem_map.mp hy with ⟨p2, _, rfl⟩
        exact strLeB_refl m.name
      · intro x hx y hy
        rcases List.mem_map.mp hx with ⟨p1, _, rfl⟩
        rcases List.mem_flatMap.mp hy with ⟨m2, hm2, hy2⟩
        rcases List.mem_map.mp hy2 with ⟨p2, _, rfl⟩
        exact hhead m2 hm2
  · intro ds
    induction ds with
    | nil => rfl
    | cons d rest ih =>
      simp only [applyRouteStack, List.foldr_cons, Option.getD_some, route]
      simp only [applyRouteStack, route] at ih
      rw [ih, List.reverse_cons]

/-! ## Lemmas about the worker loop -/

theorem workerTick_sched (interval : Nat) (fails : Nat → Bool) (s : WorkerState) :
    (workerTick interval fails s).jobRuns =
      (if s.countdown = 0 then s.jobRuns + 1 else s.jobRuns)
    ∧ (workerTick interval fails s).countdown =
      (if s.countdown = 0 then interval else s.countdown - 1)
    ∧ (workerTick interval fails s).logged =
      (if s.countdown = 0 ∧ fails s.jobRuns = true then s.logged + 1
        else s.logged) := by
  unfold workerTick
  by_cases h : s.countdown = 0 <;> by_cases hf : fails s.jobRuns <;>
    simp [h, hf]

/-! ## Claim theorems about the worker lifecycle -/

/-- C9: an exception from `do_job` is caught and logged and never stops
the loop — after any number of ticks, the number of `do_job` invocations
made and the countdown to the next one are exactly those of a run in
which every invocation succeeds (the failure schedule is irrelevant to
the ticking), and the log holds precisely one entry per failed
invocation. -/
theorem worker_crash_isolation (interval n : Nat) (fails fails2 : Nat → Bool) :
    ((workerRun interval fails n).jobRuns =
        (workerRun interval fails2 n).jobRuns
      ∧ (workerRun interval fails n).countdown =
        (workerRun interval fails2 n).countdown)
    ∧ (workerRun interval fails n).logged =
        ((List.range (workerRun interval fails n).jobRuns).filter fails).length := by
  induction n with
  | zero => exact ⟨⟨rfl, rfl⟩, rfl⟩
  | succ n ih =>
    rcases ih with ⟨⟨hjr, hcd⟩, hlog⟩
    rcases workerTick_sched interval fails (workerRun interval fails n) with
      ⟨hj1, hc1, hl1⟩
    rcases workerTick_sched interval fails2 (workerRun interval fails2 n) with
      ⟨hj2, hc2, hl2⟩
    refine ⟨⟨?_, ?_⟩, ?_⟩
    · show (workerTick interval fails (workerRun interval fails n)).jobRuns =
        (workerTick interval fails2 (workerRun interval fails2 n)).jobRuns
      rw [hj1, hj2, hjr, hcd]
    · show (workerTick interval fails (workerRun interval fails n)).countdown =
        (workerTick interval fails2 (workerRun interval fails2 n)).countdown
      rw [hc1, hc2, hcd]
    · show (workerTick interval fails (workerRun interval fails n)).logged =
        ((List.range
          (workerTick interval fails (workerRun interval fails n)).jobRuns).filter
            fails).length
      rw [hl1, hj1]
      by_cases h : (workerRun interval fails n).countdown = 0
      · by_cases hf : fails (workerRun interval fails n).jobRuns = true
        · simp [h, hf, List.range_succ, List.filter_append, hlog]
        · simp [h, hf, List.range_succ, List.filter_append, hlog]
      · simp [h, hlog]

/-- C10: `start_worker` is idempotent — when a live worker thread is
recorded the call is a no-op, so two calls without an intervening stop
leave exactly the state of one call and one spawned loop; when no live
thread exists it spawns exactly one new loop and records it as alive. -/
theorem start_worker_idempotent (s : WorkerCtl) :
    start_worker (start_worker s) = start_worker s
    ∧ (start_worker s).threadAlive = Option.some true
    ∧ (s.threadAlive = Option.some true → start_worker s = s)
    ∧ (s.threadAlive ≠ Option.some true →
        (start_worker s).spawned = s.spawned + 1) := by
  rcases s with ⟨ta, sp⟩
  cases ta with
  | none => exact ⟨rfl, rfl, fun h => absurd h (by simp), fun _ => rfl⟩
  | some b =>
    cases b with
    | true => exact ⟨rfl, rfl, fun _ => rfl, fun h => absurd rfl h⟩
    | false => exact ⟨rfl, rfl, fun h => by simp at h, fun _ => rfl⟩

/-- C10, witness: the idempotence theorem applied to an instance with a
live recorded thread — the call changes nothing — and to a fresh
instance — the call spawns exactly one loop. -/
theorem start_worker_idempotent_witness :
    start_worker ⟨Option.some true, 1⟩ = ⟨Option.some true, 1⟩
    ∧ (start_worker ⟨Option.none, 0⟩).spawned = 0 + 1 :=
  ⟨(start_worker_idempotent ⟨Option.some true, 1⟩).2.2.1 rfl,
    (start_worker_idempotent ⟨Option.none, 0⟩).2.2.2 (by decide)⟩

end TheBot
